import Mathlib

/-!
# Verification of the gonfig aggregation-and-live-reload engine

Shallow embedding of the core of the `gonfig` configuration library:
the structured-value model (`structpb`-shaped tagged union), the sample
merge engine (`merge/sample/merge.go`), the aggregated load pipeline
(`load.go`), the watch orchestrator's debounce loop and startup
(`watch.go`), the per-resource change-suppression step (file and consul
backends), resource stop handles, and the environment-variable raw load.
-/

set_option autoImplicit false

namespace Gonfig

/-! ## Structured value model

`structpb.Value` is a tagged union: NullValue, BoolValue, NumberValue
(an IEEE double, carried here as a rational since the merge engine only
copies the payload verbatim), StringValue, ListValue and StructValue.
A Go `*structpb.Value` may also be `nil` or carry a `nil`/unrecognized
`Kind`; the `unknown` constructor stands for those, which `copyValue`
turns into NullValue (its `default` branch). A `StructValue`'s field
map is modelled as an association list with (invariantly) unique keys,
mirroring a Go `map[string]*structpb.Value`. -/
inductive Value : Type where
  | null : Value
  | bool (b : Bool) : Value
  | num (n : ℚ) : Value
  | str (s : String) : Value
  | list (vs : List Value) : Value
  | struct (fs : List (String × Value)) : Value
  | unknown : Value

abbrev Fields := List (String × Value)

/-- Go map assignment `target.Fields[key] = v`: replace the binding if
the key is present, otherwise add a new binding. -/
def setField (fs : Fields) (k : String) (v : Value) : Fields :=
  if fs.any (fun p => p.1 = k) then
    fs.map (fun p => if p.1 = k then (k, v) else p)
  else
    fs ++ [(k, v)]

/-- Go map lookup `fields[key]` (first binding wins; with unique keys
the choice is immaterial). -/
def getField (fs : Fields) (k : String) : Option Value :=
  (fs.find? (fun p => p.1 = k)).map (fun p => p.2)

mutual
/-- `Merger.copyValue` from `merge/sample/merge.go`: deep copy of a
`structpb.Value`. Primitive kinds are rebuilt, a struct is copied by
`mergeStruct` into a fresh empty struct, a list by `mergeList` into a
fresh empty list, and a nil/unknown kind becomes NullValue. -/
def copyValue : Value → Value
  | .null => .null
  | .bool b => .bool b
  | .num n => .num n
  | .str s => .str s
  | .list vs => .list (copyList vs)
  | .struct fs => .struct (mergeFields [] fs)
  | .unknown => .null

/-- `Merger.mergeList`: append a deep copy of every source item to the
target list. -/
def copyList : List Value → List Value
  | [] => []
  | v :: rest => copyValue v :: copyList rest

/-- `Merger.mergeStruct`: for each field of the source struct, assign a
deep copy of its value into the target struct (overwriting an existing
binding at that key). -/
def mergeFields : Fields → Fields → Fields
  | target, [] => target
  | target, (k, v) :: rest => mergeFields (setField target k (copyValue v)) rest
end

/-- `Merger.Merge` from `merge/sample/merge.go`: start from a fresh
empty struct and merge each document into it, in input order. -/
def Merge (values : List Fields) : Fields :=
  values.foldl mergeFields []

/-- The keys of a struct's field list. -/
def keys (fs : Fields) : List String :=
  fs.map Prod.fst

/-- The Go-map invariant on a field list: no key occurs twice. -/
def nodupKeys : Fields → Bool
  | [] => true
  | (k, _) :: rest => !(rest.any (fun p => p.1 = k)) && nodupKeys rest

mutual
/-- Well-formedness of a value as produced by a decoder: no nil/unknown
kinds, and every struct's field map has unique keys. -/
def wfValue : Value → Bool
  | .null => true
  | .bool _ => true
  | .num _ => true
  | .str _ => true
  | .list vs => wfList vs
  | .struct fs => nodupKeys fs && wfFields fs
  | .unknown => false

def wfList : List Value → Bool
  | [] => true
  | v :: rest => wfValue v && wfList rest

def wfFields : Fields → Bool
  | [] => true
  | (_, v) :: rest => wfValue v && wfFields rest
end

/-- The value a key receives from an ordered document sequence under
last-writer-wins: the key's value in the last document that contains it. -/
def lastVal (docs : List Fields) (k : String) : Option Value :=
  docs.foldl (fun acc d => (getField d k).elim acc (fun v => some v)) none

/-! ### Lemmas about `setField`, `getField` and `mergeFields` -/

theorem getField_nil (k : String) : getField [] k = none := rfl

theorem getField_cons (k' : String) (v : Value) (rest : Fields) (k : String) :
    getField ((k', v) :: rest) k = if k' = k then some v else getField rest k := by
  by_cases h : k' = k <;> simp [getField, List.find?, h]

theorem setField_cons_ne (q : String × Value) (rest : Fields) (k : String) (v : Value)
    (h : q.1 ≠ k) : setField (q :: rest) k v = q :: setField rest k v := by
  by_cases hr : rest.any (fun p => p.1 = k) <;> simp [setField, h, hr]

theorem setField_cons_eq (q : String × Value) (rest : Fields) (k : String) (v : Value)
    (h : q.1 = k) :
    setField (q :: rest) k v =
      (k, v) :: rest.map (fun p => if p.1 = k then (k, v) else p) := by
  simp [setField, h]

theorem getField_map_set (rest : Fields) (k' k : String) (v : Value) (h : k' ≠ k) :
    getField (rest.map (fun p => if p.1 = k' then (k', v) else p)) k = getField rest k := by
  induction rest with
  | nil => rfl
  | cons q qs ih =>
    by_cases hq : q.1 = k'
    · simp only [List.map_cons, if_pos hq]
      rw [getField_cons, getField_cons, if_neg h, ih, if_neg (hq ▸ h)]
    · simp only [List.map_cons, if_neg hq]
      rcases q with ⟨qk, qv⟩
      rw [getField_cons, getField_cons, ih]

theorem getField_setField (fs : Fields) (k' : String) (v : Value) (k : String) :
    getField (setField fs k' v) k = if k' = k then some v else getField fs k := by
  induction fs with
  | nil =>
    by_cases h : k' = k <;> simp [setField, getField, List.find?, h]
  | cons q rest ih =>
    by_cases hq : q.1 = k'
    · rw [setField_cons_eq q rest k' v hq, getField_cons]
      by_cases h : k' = k
      · simp [h]
      · rw [if_neg h, getField_map_set rest k' k v h, getField_cons]
        have hqk : q.1 ≠ k := fun hc => h (hq.symm.trans hc)
        rw [if_neg hqk, if_neg h]
    · rw [setField_cons_ne q rest k' v hq]
      rcases q with ⟨qk, qv⟩
      rw [getField_cons, getField_cons, ih]
      by_cases h : k' = k
      · have hqk : qk ≠ k := fun hk => hq (by simp [hk, h])
        simp [h, hqk]
      · simp [h]

theorem getField_eq_none_of_not_any (fs : Fields) (k : String)
    (h : fs.any (fun p => p.1 = k) = false) : getField fs k = none := by
  induction fs with
  | nil => rfl
  | cons q rest ih =>
    simp only [List.any_cons, Bool.or_eq_false_iff, decide_eq_false_iff_not] at h
    rcases q with ⟨qk, qv⟩
    rw [getField_cons, if_neg h.1]
    exact ih h.2

theorem getField_mergeFields (s : Fields) (t : Fields) (k : String)
    (h : nodupKeys s = true) :
    getField (mergeFields t s) k =
      (getField s k).elim (getField t k) (fun v => some (copyValue v)) := by
  induction s generalizing t with
  | nil => rfl
  | cons q rest ih =>
    rcases q with ⟨k₁, v⟩
    simp only [nodupKeys, Bool.and_eq_true, Bool.not_eq_true'] at h
    rw [show mergeFields t ((k₁, v) :: rest) =
          mergeFields (setField t k₁ (copyValue v)) rest from rfl,
        ih _ h.2, getField_cons]
    by_cases hk : k₁ = k
    · subst hk
      rw [getField_eq_none_of_not_any rest k₁ h.1, getField_setField, if_pos rfl]
      simp
    · rw [getField_setField, if_neg hk]
      simp [hk]

theorem getField_foldl_mergeFields (docs : List Fields) (t : Fields) (k : String)
    (h : ∀ d ∈ docs, nodupKeys d = true) :
    getField (docs.foldl mergeFields t) k =
      docs.foldl (fun acc d => (getField d k).elim acc (fun v => some (copyValue v)))
        (getField t k) := by
  induction docs generalizing t with
  | nil => rfl
  | cons d rest ih =>
    simp only [List.foldl_cons]
    rw [ih _ (fun x hx => h x (List.mem_cons_of_mem d hx)),
        getField_mergeFields d t k (h d (List.mem_cons_self d rest))]

theorem foldl_elim_map_copy (docs : List Fields) (k : String) (acc : Option Value) :
    docs.foldl (fun a d => (getField d k).elim a (fun v => some (copyValue v)))
        (Option.map copyValue acc) =
      Option.map copyValue
        (docs.foldl (fun a d => (getField d k).elim a (fun v => some v)) acc) := by
  induction docs generalizing acc with
  | nil => rfl
  | cons d rest ih =>
    simp only [List.foldl_cons]
    cases hd : getField d k with
    | none => exact ih acc
    | some v =>
      simp only [Option.elim]
      exact ih (some v)

/-! ### Deep copy is the identity on well-formed values -/

theorem setField_of_not_any (fs : Fields) (k : String) (v : Value)
    (h : fs.any (fun p => p.1 = k) = false) : setField fs k v = fs ++ [(k, v)] := by
  simp [setField, h]

/-- Merging a struct with unique keys into a disjoint target appends
the (copied) source fields in source order. -/
theorem mergeFields_disjoint (s t : Fields)
    (hs : nodupKeys s = true)
    (ht : ∀ p ∈ s, t.any (fun q => q.1 = p.1) = false) :
    mergeFields t s = t ++ s.map (fun p => (p.1, copyValue p.2)) := by
  induction s generalizing t with
  | nil => simp [mergeFields]
  | cons q rest ih =>
    rcases q with ⟨k, v⟩
    simp only [nodupKeys, Bool.and_eq_true, Bool.not_eq_true'] at hs
    have hdis : ∀ p ∈ rest, (t ++ [(k, copyValue v)]).any (fun q => q.1 = p.1) = false := by
      intro p hp
      simp only [List.any_append, List.any_cons, List.any_nil, Bool.or_eq_false_iff,
        decide_eq_false_iff_not]
      refine ⟨by simpa using ht p (List.mem_cons_of_mem _ hp), ?_, trivial⟩
      intro hkp
      have hmem : rest.any (fun r => r.1 = k) = true := by
        simp only [List.any_eq_true, decide_eq_true_eq]
        exact ⟨p, hp, hkp.symm⟩
      rw [hs.1] at hmem
      exact absurd hmem (by simp)
    rw [show mergeFields t ((k, v) :: rest) =
          mergeFields (setField t k (copyValue v)) rest from rfl,
        setField_of_not_any t k (copyValue v) (ht (k, v) (List.mem_cons_self _ _)),
        ih (t ++ [(k, copyValue v)]) hs.2 hdis]
    simp

mutual
theorem copyValue_wf : ∀ v : Value, wfValue v = true → copyValue v = v
  | .null, _ => rfl
  | .bool _, _ => rfl
  | .num _, _ => rfl
  | .str _, _ => rfl
  | .unknown, h => absurd h (by simp [wfValue])
  | .list vs, h => congrArg Value.list (copyList_wf vs (by simpa [wfValue] using h))
  | .struct fs, h => by
    have h' : nodupKeys fs = true ∧ wfFields fs = true := by
      simpa [wfValue] using h
    show Value.struct (mergeFields [] fs) = Value.struct fs
    rw [mergeFields_disjoint fs [] h'.1 (by intro p _; rfl)]
    exact congrArg Value.struct (by simpa using copyFields_wf fs h'.2)

theorem copyList_wf : ∀ vs : List Value, wfList vs = true → copyList vs = vs
  | [], _ => rfl
  | v :: rest, h => by
    have h' : wfValue v = true ∧ wfList rest = true := by simpa [wfList] using h
    show copyValue v :: copyList rest = v :: rest
    rw [copyValue_wf v h'.1, copyList_wf rest h'.2]

theorem copyFields_wf :
    ∀ fs : Fields, wfFields fs = true → fs.map (fun p => (p.1, copyValue p.2)) = fs
  | [], _ => rfl
  | (k, v) :: rest, h => by
    have h' : wfValue v = true ∧ wfFields rest = true := by simpa [wfFields] using h
    show (k, copyValue v) :: rest.map (fun p => (p.1, copyValue p.2)) = (k, v) :: rest
    rw [copyValue_wf v h'.1, copyFields_wf rest h'.2]
end

/-! ### Concrete documents used by the spec's merge example -/

/-- The document A = {x:1, y:{p:1}} from the spec's merge example. -/
def docA : Fields :=
  [("x", Value.num 1), ("y", Value.struct [("p", Value.num 1)])]

/-- The document B = {y:{q:2}} from the spec's merge example. -/
def docB : Fields :=
  [("y", Value.struct [("q", Value.num 2)])]

/-- C1: Merge is a shallow, last-writer-wins union of top-level keys:
for every ordered sequence of Map-shaped documents (with the Go-map
unique-key invariant), the result maps each top-level key to a deep
copy of the value that key has in the last document containing it. -/
theorem merge_last_writer_wins (docs : List Fields) (k : String)
    (h : ∀ d ∈ docs, nodupKeys d = true) :
    getField (Merge docs) k = Option.map copyValue (lastVal docs k) := by
  unfold Merge lastVal
  rw [getField_foldl_mergeFields docs [] k h]
  exact foldl_elim_map_copy docs k none

/-- Witness for C1 at the spec's example: Merge([A, B]) with
A={x:1,y:{p:1}} and B={y:{q:2}} maps y to B's whole subtree {q:2}
(so y.p is gone) and x to 1. -/
theorem merge_last_writer_wins_witness :
    (∀ d ∈ [docA, docB], nodupKeys d = true) ∧
      getField (Merge [docA, docB]) "y" = some (Value.struct [("q", Value.num 2)]) ∧
      getField (Merge [docA, docB]) "x" = some (Value.num 1) :=
  ⟨by decide,
   (merge_last_writer_wins [docA, docB] "y" (by decide)).trans rfl,
   (merge_last_writer_wins [docA, docB] "x" (by decide)).trans rfl⟩

/-- C3: Merge of the empty sequence returns an empty Map, and Merge of
a single well-formed document [A] returns (a deep copy of) A,
structurally equal to A. -/
theorem merge_empty_and_singleton (fs : Fields)
    (h1 : nodupKeys fs = true) (h2 : wfFields fs = true) :
    Merge [] = ([] : Fields) ∧ Merge [fs] = fs := by
  refine ⟨rfl, ?_⟩
  show mergeFields [] fs = fs
  rw [mergeFields_disjoint fs [] h1 (fun p _ => rfl)]
  simpa using copyFields_wf fs h2

/-- Witness for C3 at the concrete document A = {x:1, y:{p:1}}. -/
theorem merge_empty_and_singleton_witness :
    (nodupKeys docA = true ∧ wfFields docA = true) ∧
      Merge [] = ([] : Fields) ∧ Merge [docA] = docA :=
  ⟨⟨by decide, by decide⟩, merge_empty_and_singleton docA (by decide) (by decide)⟩

/-! ## Aggregated Load (`load.go`)

`Load[Config](ctx, resources...)` sequentially loads every resource
(returning on the first error), merges the collected structs with the
registered merger, serialises the merged struct to JSON and unmarshals
it into a fresh instance of the target protobuf message. Each resource
is modelled by the outcome its `Load` would produce; the JSON
round-trip onto the schema type (`MarshalJSON` + `protojson.Unmarshal`,
an external codec) is a parameter `mapSchema`. The event trace records
which steps the pipeline actually performs. -/

/-- Observable steps of the aggregated load pipeline: `load i` is the
call to the i-th resource's `Load`, `mergeCall` the merger invocation,
`mapCall` the JSON round-trip onto the schema type. -/
inductive LoadEvent : Type where
  | load (i : Nat)
  | mergeCall
  | mapCall
deriving DecidableEq, Repr

/-- The resource loop of `Load` (load.go lines 29-37): call `Load` on
each resource in order, returning the first error at once; `i` is the
index of the next resource, recorded in the event trace. -/
def loadLoop {ε : Type} (resources : List (Except ε Fields)) (i : Nat) :
    Except ε (List Fields) × List LoadEvent :=
  match resources with
  | [] => (.ok [], [])
  | r :: rest =>
    match r with
    | .error e => (.error e, [.load i])
    | .ok v =>
      let res := loadLoop rest (i + 1)
      (res.1.map (fun vs => v :: vs), .load i :: res.2)

/-- `Load` from `load.go`: fail-fast resource loop, then merge, then
map the merged struct onto a fresh schema instance. -/
def LoadAgg {ε C : Type} (mapSchema : Fields → Except ε C)
    (resources : List (Except ε Fields)) : Except ε C × List LoadEvent :=
  match loadLoop resources 0 with
  | (.error e, evs) => (.error e, evs)
  | (.ok values, evs) => (mapSchema (Merge values), evs ++ [.mergeCall, .mapCall])

theorem loadLoop_firstError {ε : Type} :
    ∀ (rs : List (Except ε Fields)) (i k : Nat) (e : ε),
      rs.get? k = some (.error e) →
      (∀ j < k, ∃ v, rs.get? j = some (.ok v)) →
      loadLoop rs i = (.error e, (List.range' i (k + 1)).map LoadEvent.load)
  | [], _, k, _, hk, _ => by simp at hk
  | r :: rest, i, 0, e, hk, _ => by
    simp only [List.get?] at hk
    cases hk
    rfl
  | r :: rest, i, k + 1, e, hk, hpre => by
    obtain ⟨v, hv⟩ := hpre 0 (Nat.succ_pos k)
    simp only [List.get?] at hv
    cases hv
    have ih := loadLoop_firstError rest (i + 1) k e (by simpa using hk)
      (fun j hj => by simpa using hpre (j + 1) (Nat.succ_lt_succ hj))
    show ((loadLoop rest (i + 1)).1.map (fun vs => v :: vs),
        LoadEvent.load i :: (loadLoop rest (i + 1)).2) = _
    rw [ih]
    simp [List.range'_succ, Except.map]

theorem loadLoop_allOk {ε : Type} :
    ∀ (vs : List Fields) (i : Nat),
      loadLoop (ε := ε) (vs.map .ok) i =
        (.ok vs, (List.range' i vs.length).map LoadEvent.load)
  | [], _ => rfl
  | v :: rest, i => by
    show ((loadLoop (ε := ε) (rest.map .ok) (i + 1)).1.map (fun vs => v :: vs),
        LoadEvent.load i :: (loadLoop (ε := ε) (rest.map .ok) (i + 1)).2) = _
    rw [loadLoop_allOk rest (i + 1)]
    simp [List.range'_succ, Except.map]

/-- C2: Aggregated Load is fail-fast and ordered. If resource k is the
first whose Load fails, Load returns exactly that error, the trace
shows the resources were called in order 0..k and nothing after k, and
no merge and no schema mapping happen (no partial configuration). If
every resource succeeds, all resources are loaded in order, then the
merged result is mapped onto a fresh schema instance. -/
theorem load_fail_fast {ε C : Type} (mapSchema : Fields → Except ε C) :
    (∀ (rs : List (Except ε Fields)) (k : Nat) (e : ε),
        rs.get? k = some (.error e) →
        (∀ j < k, ∃ v, rs.get? j = some (.ok v)) →
        LoadAgg mapSchema rs = (.error e, (List.range (k + 1)).map LoadEvent.load)) ∧
    (∀ vs : List Fields,
        LoadAgg mapSchema (vs.map .ok) =
          (mapSchema (Merge vs),
            (List.range vs.length).map LoadEvent.load ++ [.mergeCall, .mapCall])) := by
  constructor
  · intro rs k e hk hpre
    unfold LoadAgg
    rw [loadLoop_firstError rs 0 k e hk hpre, List.range_eq_range']
  · intro vs
    unfold LoadAgg
    rw [loadLoop_allOk vs 0, List.range_eq_range']

/-- Witness for C2: with resources [ok A, error "boom", ok B] the
pipeline returns the error after calling exactly loads 0 and 1 and
never merging or mapping; with [ok A, ok B] it merges and maps. The
schema codec is instantiated with the identity codec. -/
theorem load_fail_fast_witness :
    LoadAgg (ε := String) Except.ok [.ok docA, .error "boom", .ok docB] =
        (.error "boom", [.load 0, .load 1]) ∧
      LoadAgg (ε := String) Except.ok [.ok docA, .ok docB] =
        (.ok (Merge [docA, docB]), [.load 0, .load 1, .mergeCall, .mapCall]) :=
  ⟨(load_fail_fast (ε := String) Except.ok).1 [.ok docA, .error "boom", .ok docB] 1 "boom"
      rfl
      (fun j hj => by
        interval_cases j
        exact ⟨docA, rfl⟩),
   (load_fail_fast (ε := String) Except.ok).2 [docA, docB]⟩

/-! ## Watch Orchestrator: debounce loop (watch.go lines 69-93)

The debounce goroutine runs a for-select with exactly two cases:
receive from the fan-in channel `mergedC` (which marks the dirty flag)
and receive from the ticker (which, when dirty, runs a full Aggregated
Load, publishes on success, reports and stays dirty on failure). The
loop body contains no return statement and no `ctx.Done()` case, so no
iteration terminates the goroutine; after cancellation makes `fanIn`
close `mergedC`, a receive on the closed channel completes immediately
and takes the same branch as a signal. One iteration of the loop is
modelled as a step on the dirty flag, driven by the event the select
woke up on; a tick event carries the Load outcomes the resources would
produce if the reload runs now. -/

/-- State of the debounce goroutine: the `changed` (dirty) flag. -/
structure DebounceState : Type where
  changed : Bool
deriving DecidableEq, Repr

/-- What the debounce goroutine's select wakes up on: a value received
from the fan-in channel (`signal`), a receive completing on the fan-in
channel after it was closed (`closedRecv`, same select case), or the
ticker firing (`tick rs`, with `rs` the outcomes the resources' Load
would produce if invoked now). -/
inductive DebounceEvent (ε : Type) : Type where
  | signal
  | closedRecv
  | tick (rs : List (Except ε Fields))

/-- Observable actions of one debounce-loop iteration: invoking
Aggregated Load, publishing a snapshot to the caller's output channel,
sending an error to the caller's error channel. -/
inductive DebounceOut (ε C : Type) : Type where
  | reload
  | publish (c : C)
  | err (e : ε)

def isReload {ε C : Type} : DebounceOut ε C → Bool
  | .reload => true
  | _ => false

def isPublish {ε C : Type} : DebounceOut ε C → Bool
  | .publish _ => true
  | _ => false

/-- Result of one debounce-loop iteration: the new dirty flag, the
emitted actions, and whether the goroutine keeps looping. -/
structure DebounceStepRes (ε C : Type) : Type where
  state : DebounceState
  out : List (DebounceOut ε C)
  running : Bool

/-- One iteration of the debounce goroutine (watch.go lines 72-92).
A signal (or a receive on the closed fan-in channel) sets the dirty
flag and emits nothing. A tick with the dirty flag clear does nothing.
A tick with the dirty flag set invokes Aggregated Load across all
resources: on failure the error goes to the error channel and the flag
stays set; on success the snapshot is published and the flag clears.
The loop body has no return statement, so every branch continues. -/
def debounceStep {ε C : Type} (mapSchema : Fields → Except ε C)
    (s : DebounceState) : DebounceEvent ε → DebounceStepRes ε C
  | .signal => ⟨⟨true⟩, [], true⟩
  | .closedRecv => ⟨⟨true⟩, [], true⟩
  | .tick rs =>
    if s.changed = false then ⟨⟨false⟩, [], true⟩
    else
      match (LoadAgg mapSchema rs).1 with
      | .error e => ⟨s, [.reload, .err e], true⟩
      | .ok c => ⟨⟨false⟩, [.reload, .publish c], true⟩

/-- Run the debounce loop over a sequence of wakeup events,
accumulating the emitted actions. -/
def debounceRun {ε C : Type} (mapSchema : Fields → Except ε C)
    (s : DebounceState) : List (DebounceEvent ε) → DebounceState × List (DebounceOut ε C)
  | [] => (s, [])
  | ev :: rest =>
    let st := debounceStep mapSchema s ev
    let r := debounceRun mapSchema st.state rest
    (r.1, st.out ++ r.2)

/-- C4: debounce coalescing. A signal only sets the dirty flag and
emits nothing; any single iteration emits at most one reload and at
most one published snapshot; a reload happens only on a tick with the
dirty flag set; and two rapid signals inside one interval followed by
the tick produce exactly one reload and at most one snapshot. -/
theorem watch_debounce_coalesce {ε C : Type} (mapSchema : Fields → Except ε C) :
    (∀ s, debounceStep mapSchema s .signal = ⟨⟨true⟩, [], true⟩) ∧
    (∀ s ev, (debounceStep mapSchema s ev).out.countP isReload ≤ 1 ∧
        (debounceStep mapSchema s ev).out.countP isPublish ≤ 1) ∧
    (∀ s ev, (debounceStep mapSchema s ev).out.countP isReload = 1 →
        (∃ rs, ev = .tick rs) ∧ s.changed = true) ∧
    (∀ s rs,
        (debounceRun mapSchema s [.signal, .signal, .tick rs]).2.countP isReload = 1 ∧
        (debounceRun mapSchema s [.signal, .signal, .tick rs]).2.countP isPublish ≤ 1) := by
  refine ⟨fun s => rfl, fun s ev => ?_, fun s ev h => ?_, fun s rs => ?_⟩
  · cases ev with
    | signal => simp [debounceStep]
    | closedRecv => simp [debounceStep]
    | tick rs =>
      by_cases hc : s.changed = false
      · simp [debounceStep, hc]
      · cases hload : (LoadAgg mapSchema rs).1 <;>
          simp [debounceStep, hc, hload, isReload, isPublish]
  · cases ev with
    | signal => simp [debounceStep, isReload] at h
    | closedRecv => simp [debounceStep, isReload] at h
    | tick rs =>
      refine ⟨⟨rs, rfl⟩, ?_⟩
      by_cases hc : s.changed = false
      · simp [debounceStep, hc, isReload] at h
      · simpa using hc
  · show (debounceRun mapSchema ⟨true⟩ [.tick rs]).2.countP isReload = 1 ∧
        (debounceRun mapSchema ⟨true⟩ [.tick rs]).2.countP isPublish ≤ 1
    cases hload : (LoadAgg mapSchema rs).1 <;>
      simp [debounceRun, debounceStep, hload, isReload, isPublish]

/-- Witness for C4: from a clean state, two signals and a tick (with a
resource yielding document A and the identity codec) produce exactly
one reload; and a signal alone emits nothing. -/
theorem watch_debounce_coalesce_witness :
    debounceStep (ε := String) (C := Fields) Except.ok ⟨false⟩ .signal = ⟨⟨true⟩, [], true⟩ ∧
      ((debounceRun (ε := String) (C := Fields) Except.ok ⟨false⟩
          [.signal, .signal, .tick [.ok docA]]).2.countP isReload = 1 ∧
        (debounceRun (ε := String) (C := Fields) Except.ok ⟨false⟩
          [.signal, .signal, .tick [.ok docA]]).2.countP isPublish ≤ 1) ∧
      ((∃ rs, (DebounceEvent.tick (ε := String) [.ok docA]) = .tick rs) ∧
        (⟨true⟩ : DebounceState).changed = true) :=
  ⟨(watch_debounce_coalesce Except.ok).1 ⟨false⟩,
   (watch_debounce_coalesce Except.ok).2.2.2 ⟨false⟩ [.ok docA],
   (watch_debounce_coalesce (ε := String) (C := Fields) Except.ok).2.2.1 ⟨true⟩
     (.tick [.ok docA]) (by decide)⟩

/-- C5: retry on failed reload. On a tick with the dirty flag set whose
Aggregated Load fails, the error goes to the caller's error channel,
the dirty flag stays set and nothing is published; hence any following
tick invokes Aggregated Load again with no new signal required, and n
consecutive failing ticks yield n reloads, n errors and no snapshot,
with the flag still set. -/
theorem watch_retry_on_failure {ε C : Type} (mapSchema : Fields → Except ε C)
    (s : DebounceState) (rs : List (Except ε Fields)) (e : ε)
    (hs : s.changed = true) (hload : (LoadAgg mapSchema rs).1 = .error e) :
    (debounceStep mapSchema s (.tick rs)).state.changed = true ∧
    (debounceStep mapSchema s (.tick rs)).out = [.reload, .err e] ∧
    (∀ c, DebounceOut.publish c ∉ (debounceStep mapSchema s (.tick rs)).out) ∧
    (∀ rs', (debounceStep mapSchema (debounceStep mapSchema s (.tick rs)).state
        (.tick rs')).out.countP isReload = 1) ∧
    (∀ n, (debounceRun mapSchema s (List.replicate n (.tick rs))).1.changed = true ∧
        (debounceRun mapSchema s (List.replicate n (.tick rs))).2.countP isReload = n ∧
        (debounceRun mapSchema s (List.replicate n (.tick rs))).2.countP isPublish = 0) := by
  have hcf : ¬ s.changed = false := by simp [hs]
  have hstep : debounceStep mapSchema s (.tick rs) = ⟨s, [.reload, .err e], true⟩ := by
    simp [debounceStep, hcf, hload]
  refine ⟨by rw [hstep]; exact hs, by rw [hstep], ?_, ?_, ?_⟩
  · intro c
    rw [hstep]
    simp
  · intro rs'
    rw [hstep]
    show (debounceStep mapSchema s (.tick rs')).out.countP isReload = 1
    cases hload' : (LoadAgg mapSchema rs').1 <;>
      simp [debounceStep, hcf, hload', isReload]
  · intro n
    induction n with
    | zero => exact ⟨hs, rfl, rfl⟩
    | succ m ih =>
      rw [List.replicate_succ]
      have hrun : debounceRun mapSchema s
          (DebounceEvent.tick rs :: List.replicate m (DebounceEvent.tick rs)) =
          ((debounceRun mapSchema s (List.replicate m (DebounceEvent.tick rs))).1,
            DebounceOut.reload :: DebounceOut.err e ::
              (debounceRun mapSchema s (List.replicate m (DebounceEvent.tick rs))).2) := by
        simp only [debounceRun, hstep]
        rfl
      rw [hrun]
      refine ⟨ih.1, ?_, ?_⟩
      · simp [List.countP_cons, isReload, ih.2.1]
      · simp [List.countP_cons, isPublish, ih.2.2]

/-- Witness for C5 with one permanently failing resource: three failing
ticks from a dirty state give three reloads, three errors, no snapshot,
and the flag remains set. -/
theorem watch_retry_on_failure_witness :
    ((⟨true⟩ : DebounceState).changed = true ∧
      (LoadAgg (ε := String) (C := Fields) Except.ok [.error "down"]).1 = .error "down") ∧
      (debounceStep (ε := String) (C := Fields) Except.ok ⟨true⟩
          (.tick [.error "down"])).out = [.reload, .err "down"] ∧
      (debounceRun (ε := String) (C := Fields) Except.ok ⟨true⟩
          (List.replicate 3 (.tick [.error "down"]))).2.countP isReload = 3 :=
  ⟨⟨rfl, rfl⟩,
   (watch_retry_on_failure Except.ok ⟨true⟩ [.error "down"] "down" rfl rfl).2.1,
   ((watch_retry_on_failure Except.ok ⟨true⟩ [.error "down"] "down" rfl rfl).2.2.2.2 3).2.1⟩

/-! ## Watch Orchestrator: startup (watch.go lines 31-57)

During Starting, the orchestrator subscribes each resource in order.
Before the loop it defines a combined stop closure over the `stops`
slice ("Combined stop function that stops all individual watchers").
Inside the loop, however, `stop, err := watcher.Watch(...)` declares a
new loop-local `stop`, shadowing the combined one; the error branch
`return nil, errors.Join(err, stop(ctx))` therefore invokes the stop
handle returned by the failing `Watch` call itself — not the handles of
the resources already subscribed — and panics if that handle is nil
(as it is for the repository's own file and env resources, whose Watch
returns `nil` together with a non-nil error). The model mirrors this
loop literally; stop handles are identified by resource index. -/

/-- Outcome of one resource's `Watch` call during startup: success
returns a stop handle, failure returns an error plus whatever stop
handle the failing call returned (`none` models a nil function). -/
inductive SubResult (ε : Type) : Type where
  | ok (stopId : Nat)
  | fail (e : ε) (returned : Option Nat)
deriving DecidableEq, Repr

/-- Outcome of the startup loop: `started` with the collected stop
handles, `failed` with the error and the stop handles actually invoked
while cleaning up, or `panicked` when a nil stop handle was called. -/
inductive StartOutcome (ε : Type) : Type where
  | started (stops : List Nat)
  | failed (e : ε) (stopsCalled : List Nat)
  | panicked
deriving DecidableEq, Repr

/-- The subscription loop of `Watch` (watch.go lines 49-57). `stops`
accumulates the handles of already-subscribed resources; on failure, the
loop-local shadowed `stop` — the handle returned by the failing call —
is the only one invoked. -/
def watchStartLoop {ε : Type} : List (SubResult ε) → List Nat → StartOutcome ε
  | [], stops => .started stops
  | .ok sid :: rest, stops => watchStartLoop rest (stops ++ [sid])
  | .fail e (some sid) :: _, _ => .failed e [sid]
  | .fail _ none :: _, _ => .panicked

/-- Startup of `Watch`: run the subscription loop with an empty stop
slice. -/
def watchStart {ε : Type} (rs : List (SubResult ε)) : StartOutcome ε :=
  watchStartLoop rs []

/-- C7 (divergence): when the second resource's subscription fails, the
orchestrator invokes only the stop handle returned by the failing Watch
call (handle 2) — the already-subscribed resource's handle 1 is never
stopped, so a partially-subscribed session survives; and when the
failing Watch returned a nil handle (as the file and env resources do
on failure), the cleanup call panics. All-success startup, for
contrast, keeps every handle. -/
theorem watch_start_not_atomic :
    watchStart (ε := String) [.ok 1, .fail "subscription failed" (some 2)] =
        .failed "subscription failed" [2] ∧
      (1 : Nat) ∉ [2] ∧
      watchStart (ε := String) [.ok 1, .fail "subscription failed" none] = .panicked ∧
      watchStart (ε := String) [.ok 1, .ok 2] = .started [1, 2] := by
  refine ⟨rfl, by decide, rfl, rfl⟩

/-! ## Stop handles (file: part_009 lines 104-110; env: part_011 lines 63-67)

The file resource builds its stop function with `sync.Once` around
`close(stopC)`; the env resource's stop function is a bare
`close(stopC)`. In Go, closing an already-closed channel panics. -/

/-- Close-state of a Go channel. -/
inductive ChanState : Type where
  | opened
  | closed
deriving DecidableEq, Repr

/-- `close(c)` on a Go channel: panics (error) if already closed. -/
def closeChan : ChanState → Except Unit ChanState
  | .opened => .ok .closed
  | .closed => .error ()

/-- The env resource's stop function (part_011 lines 63-67):
`func(ctx) error { close(stopC); return nil }`. -/
def envStopCall (c : ChanState) : Except Unit ChanState :=
  closeChan c

/-- The file resource's stop function (part_009 lines 104-110):
`onceStop.Do(func() { close(stopC) })`; the Boolean records whether the
`sync.Once` has fired. -/
def onceStopCall : Bool × ChanState → Except Unit (Bool × ChanState)
  | (false, c) => (closeChan c).map (fun c2 => (true, c2))
  | (true, c) => .ok (true, c)

/-- C8 (divergence): calling the env resource's stop handle twice
closes an already-closed channel, a Go panic — the second call is not a
no-op; the file resource's `sync.Once`-guarded stop handle is
idempotent: the second (and any later) call succeeds and changes
nothing. -/
theorem stop_idempotency_divergence :
    (envStopCall ChanState.opened).bind envStopCall = .error () ∧
      (onceStopCall (false, ChanState.opened)).bind onceStopCall =
        .ok (true, ChanState.closed) ∧
      (∀ c, onceStopCall (true, c) = .ok (true, c)) := by
  exact ⟨rfl, rfl, fun c => rfl⟩

/-! ## Per-resource watch loop (file backend, part_009 lines 113-177)

The file resource's watch goroutine is a for-select over the governing
context, the stop channel and the fsnotify event/error channels. File
names are taken as already cleaned (`filepath.Clean`); raw file content
is a byte string. One iteration is modelled as a step on the private
last-seen snapshot `pre`, driven by the case the select woke up on; the
outcome records the emitted callbacks, whether the formatter's Parse
ran, and whether the loop keeps running. -/

/-- Raw byte content. -/
abbrev Bytes := List Nat

/-- What the file watch loop's select wakes up on. `fsEvent` carries
the (cleaned) event name, whether the event has the Write or Create
flag, and the outcome re-reading the file would produce. -/
inductive FileEvent (ε : Type) : Type where
  | ctxDone (e : ε)
  | stopSig
  | fsErrorsClosed
  | fsError (e : ε)
  | fsEventsClosed
  | fsEvent (name : String) (writeOrCreate : Bool) (readResult : Except ε Bytes)

/-- Observable callbacks of one iteration of a resource watch loop:
an error reported through errFunc, an invocation of the formatter's
Parse, a change notification through notifyFunc. -/
inductive WatchOut (ε : Type) : Type where
  | errOut (e : ε)
  | decodeCall
  | notify (v : Fields)

/-- Result of one iteration of the file watch loop: the new last-seen
snapshot, the emitted callbacks, and whether the loop keeps running. -/
structure WatchStepRes (ε : Type) : Type where
  pre : Option Bytes
  out : List (WatchOut ε)
  running : Bool

/-- One iteration of the file resource's watch loop (part_009 lines
122-176). On context cancellation the loop reports `ctx.Err()` and
exits; on a stop signal or a closed fsnotify channel it exits silently;
a watcher error is reported and the loop continues. A file event for
another file, or without Write/Create, is ignored. Otherwise the file
is re-read; on read error the error is reported; if the new content
equals the stored snapshot the iteration does nothing at all (no parse,
no notification, snapshot kept); otherwise the content is parsed —
notify and store on success, report on failure. -/
def fileLoopStep {ε : Type} (filename : String) (parse : Bytes → Except ε Fields)
    (pre : Option Bytes) : FileEvent ε → WatchStepRes ε
  | .ctxDone e => ⟨pre, [.errOut e], false⟩
  | .stopSig => ⟨pre, [], false⟩
  | .fsErrorsClosed => ⟨pre, [], false⟩
  | .fsError e => ⟨pre, [.errOut e], true⟩
  | .fsEventsClosed => ⟨pre, [], false⟩
  | .fsEvent name wc readResult =>
    if name ≠ filename then ⟨pre, [], true⟩
    else if !wc then ⟨pre, [], true⟩
    else
      match readResult with
      | .error e => ⟨pre, [.errOut e], true⟩
      | .ok data =>
        if pre = some data then ⟨pre, [], true⟩
        else
          match parse data with
          | .error e => ⟨pre, [.decodeCall, .errOut e], true⟩
          | .ok v => ⟨some data, [.decodeCall, .notify v], true⟩

/-- The consul resource's watch-plan handler for a KV pair (part_008
lines 260-294), after the nil/type checks: compare the pair's value
with the stored snapshot; if byte-equal, return without parsing or
notifying; otherwise parse — report a parse error, or notify and store
the new snapshot. -/
def consulHandleKV {ε : Type} (parse : Bytes → Except ε Fields) (pre : Option Bytes)
    (data : Bytes) : Option Bytes × List (WatchOut ε) :=
  if pre = some data then (pre, [])
  else
    match parse data with
    | .error e => (pre, [.decodeCall, .errOut e])
    | .ok v => (some data, [.decodeCall, .notify v])

/-- C6: change suppression. For the file watch loop: a write event
whose re-read content is byte-for-byte equal to the stored snapshot
emits nothing — no notification, no Parse call — and keeps the
snapshot; a notification is emitted exactly when the content differs
from the stored snapshot (or none is stored) and decoding succeeds,
and Parse runs exactly when the content differs (or none is stored).
The consul handler obeys the same discipline. -/
theorem watch_change_suppression {ε : Type} (filename : String)
    (parse : Bytes → Except ε Fields) :
    (∀ data, fileLoopStep filename parse (some data)
        (.fsEvent filename true (.ok data)) = ⟨some data, [], true⟩) ∧
    (∀ pre data v,
        WatchOut.notify v ∈
            (fileLoopStep filename parse pre (.fsEvent filename true (.ok data))).out ↔
          (¬ pre = some data) ∧ parse data = .ok v) ∧
    (∀ pre data,
        WatchOut.decodeCall ∈
            (fileLoopStep filename parse pre (.fsEvent filename true (.ok data))).out ↔
          ¬ pre = some data) ∧
    (∀ data, consulHandleKV parse (some data) data = (some data, [])) ∧
    (∀ pre data v,
        WatchOut.notify v ∈ (consulHandleKV parse pre data).2 ↔
          (¬ pre = some data) ∧ parse data = .ok v) := by
  refine ⟨fun data => by simp [fileLoopStep], fun pre data v => ?_, fun pre data => ?_,
    fun data => by simp [consulHandleKV], fun pre data v => ?_⟩
  · by_cases hp : pre = some data
    · simp [fileLoopStep, hp]
    · cases hparse : parse data with
      | error e => simp [fileLoopStep, hp, hparse]
      | ok w =>
        simp only [fileLoopStep, if_neg (by simp : ¬ filename ≠ filename),
          Bool.not_true, if_neg (by simp : ¬ (false : Bool) = true), if_neg hp, hparse]
        constructor
        · intro hmem
          rcases List.mem_cons.mp hmem with h1 | h2
          · cases h1
          · rcases List.mem_singleton.mp h2 with h3
            cases h3
            exact ⟨hp, rfl⟩
        · rintro ⟨-, hok⟩
          cases hok
          simp
  · by_cases hp : pre = some data
    · simp [fileLoopStep, hp]
    · cases hparse : parse data with
      | error e => simp [fileLoopStep, hp, hparse]
      | ok w => simp [fileLoopStep, hp, hparse]
  · by_cases hp : pre = some data
    · simp [consulHandleKV, hp]
    · cases hparse : parse data with
      | error e => simp [consulHandleKV, hp, hparse]
      | ok w =>
        simp only [consulHandleKV, if_neg hp, hparse]
        constructor
        · intro hmem
          rcases List.mem_cons.mp hmem with h1 | h2
          · cases h1
          · rcases List.mem_singleton.mp h2 with h3
            cases h3
            exact ⟨hp, rfl⟩
        · rintro ⟨-, hok⟩
          cases hok
          simp

/-- C9 (divergence): on cancellation, the file resource's watch loop
does exit and surfaces the context's error through errFunc, as claimed;
but the orchestrator's debounce goroutine (watch.go lines 69-93) has no
`ctx.Done()` case and no return statement at all: every iteration —
including a receive completing on the fan-in channel after cancellation
closes it, which merely re-marks the dirty flag — continues the loop,
so the debounce loop never exits and delivers no Cancelled condition of
its own. -/
theorem watch_cancellation_divergence {ε C : Type} (mapSchema : Fields → Except ε C)
    (filename : String) (parse : Bytes → Except ε Fields) :
    (∀ pre e, fileLoopStep filename parse pre (.ctxDone e) = ⟨pre, [.errOut e], false⟩) ∧
    (∀ s ev, (debounceStep mapSchema s ev).running = true) ∧
    (∀ s, debounceStep mapSchema s .closedRecv = ⟨⟨true⟩, [], true⟩) := by
  refine ⟨fun pre e => rfl, fun s ev => ?_, fun s => rfl⟩
  cases ev with
  | signal => rfl
  | closedRecv => rfl
  | tick rs =>
    by_cases hc : s.changed = false
    · simp [debounceStep, hc]
    · cases hload : (LoadAgg mapSchema rs).1 <;> simp [debounceStep, hc, hload]

/-! ## Environment-variable raw load (part_010 lines 166-180, part_011 lines 39-53)

`Resource.load` filters `os.Environ()` down to the entries carrying the
configured prefix, errors if none match, sorts the matching
`KEY=VALUE` byte strings with `slices.SortFunc(environs,
bytes.Compare)` and joins them with a newline. The sort comparator is
the bytewise lexicographic order; since it is total, transitive and
antisymmetric on byte strings, the sorted result is the unique sorted
arrangement of the matching entries, so any correct sort models
`slices.SortFunc` here. The process environment is the input list; the
error case is modelled as `none`. -/

/-- `bytes.Compare(a, b) <= 0`: bytewise lexicographic order. -/
def byteLe : Bytes → Bytes → Bool
  | [], _ => true
  | _ :: _, [] => false
  | a :: as, b :: bs => if a < b then true else if b < a then false else byteLe as bs

/-- The relation sorted by `slices.SortFunc(environs, bytes.Compare)`. -/
def ByteLeR (a b : Bytes) : Prop := byteLe a b = true

instance : DecidableRel ByteLeR := fun a b => by
  unfold ByteLeR
  infer_instance

theorem byteLe_total : ∀ a b : Bytes, byteLe a b = true ∨ byteLe b a = true
  | [], _ => Or.inl rfl
  | _ :: _, [] => Or.inr rfl
  | a :: as, b :: bs => by
    rcases Nat.lt_trichotomy a b with h | h | h
    · left
      simp [byteLe, h]
    · subst h
      rcases byteLe_total as bs with ih | ih <;> [left; right] <;> simpa [byteLe] using ih
    · right
      simp [byteLe, h]

theorem byteLe_antisymm : ∀ a b : Bytes, byteLe a b = true → byteLe b a = true → a = b
  | [], [], _, _ => rfl
  | [], _ :: _, _, hba => by simp [byteLe] at hba
  | _ :: _, [], hab, _ => by simp [byteLe] at hab
  | a :: as, b :: bs, hab, hba => by
    rcases Nat.lt_trichotomy a b with h | h | h
    · exfalso
      simp [byteLe, h, Nat.not_lt.mpr (Nat.le_of_lt h)] at hba
    · subst h
      simp only [byteLe, lt_irrefl, if_false, if_neg (lt_irrefl a)] at hab hba
      rw [byteLe_antisymm as bs hab hba]
    · exfalso
      simp [byteLe, h, Nat.not_lt.mpr (Nat.le_of_lt h)] at hab

theorem byteLe_trans : ∀ a b c : Bytes, byteLe a b = true → byteLe b c = true →
    byteLe a c = true
  | [], _, _, _, _ => rfl
  | _ :: _, [], _, hab, _ => by simp [byteLe] at hab
  | _ :: _, _ :: _, [], _, hbc => by simp [byteLe] at hbc
  | a :: as, b :: bs, c :: cs, hab, hbc => by
    rcases Nat.lt_trichotomy a b with h1 | h1 | h1
    · rcases Nat.lt_trichotomy b c with h2 | h2 | h2
      · simp [byteLe, Nat.lt_trans h1 h2]
      · subst h2
        simp [byteLe, h1]
      · exfalso
        simp [byteLe, h2, Nat.not_lt.mpr (Nat.le_of_lt h2)] at hbc
    · subst h1
      rcases Nat.lt_trichotomy a c with h2 | h2 | h2
      · simp [byteLe, h2]
      · subst h2
        simp only [byteLe, lt_irrefl, if_neg (lt_irrefl a)] at hab hbc
        simpa [byteLe, if_neg (lt_irrefl a)] using byteLe_trans as bs cs hab hbc
      · exfalso
        simp [byteLe, h2, Nat.not_lt.mpr (Nat.le_of_lt h2)] at hbc
    · exfalso
      simp [byteLe, h1, Nat.not_lt.mpr (Nat.le_of_lt h1)] at hab

instance : IsTotal Bytes ByteLeR := ⟨byteLe_total⟩

instance : IsTrans Bytes ByteLeR := ⟨byteLe_trans⟩

instance : IsAntisymm Bytes ByteLeR := ⟨byteLe_antisymm⟩

/-- `strings.HasPrefix(environ, r.prefix)`. -/
def hasPfx (pfx e : Bytes) : Bool :=
  pfx.isPrefixOf e

/-- `bytes.Join(environs, []byte("\n"))` with byte 10 as newline. -/
def joinNl (environs : List Bytes) : Bytes :=
  List.intercalate [10] environs

/-- The env resource's raw `load` (part_010 lines 166-180 = part_011
lines 39-53): keep the environment entries carrying the prefix, fail
(`none`) when there are none, otherwise sort them bytewise and join
them with newlines. -/
def envLoad (pfx : Bytes) (environ : List Bytes) : Option Bytes :=
  let environs := environ.filter (fun e => hasPfx pfx e)
  if environs.length = 0 then none
  else some (joinNl (environs.insertionSort ByteLeR))

/-- C10: the env resource's raw load is deterministic in the set of
matching variables: permuting the process environment's enumeration
order never changes the produced bytes (the matching entries are sorted
bytewise before joining), so two loads over the same variable set are
byte-identical. -/
theorem env_load_order_independent (pfx : Bytes) (env1 env2 : List Bytes)
    (h : env1.Perm env2) : envLoad pfx env1 = envLoad pfx env2 := by
  unfold envLoad
  have hf : (env1.filter (fun e => hasPfx pfx e)).Perm
      (env2.filter (fun e => hasPfx pfx e)) := h.filter _
  have hlen : (env1.filter (fun e => hasPfx pfx e)).length =
      (env2.filter (fun e => hasPfx pfx e)).length := hf.length_eq
  have hsorteq : (env1.filter (fun e => hasPfx pfx e)).insertionSort ByteLeR =
      (env2.filter (fun e => hasPfx pfx e)).insertionSort ByteLeR := by
    refine List.eq_of_perm_of_sorted ?_ (List.sorted_insertionSort _ _)
      (List.sorted_insertionSort _ _)
    exact ((List.perm_insertionSort _ _).trans hf).trans
      (List.perm_insertionSort _ _).symm
  simp only [hlen, hsorteq]

/-- Witness for C10 at a concrete environment: enumerating
["APP_B=2", "HOME=h", "APP_A=1"] and ["APP_A=1", "APP_B=2", "HOME=h"]
(as byte strings) yields the same raw load for prefix "APP_". -/
theorem env_load_order_independent_witness :
    ([[65, 80, 80, 95, 66, 61, 50], [72, 79, 77, 69, 61, 104],
        [65, 80, 80, 95, 65, 61, 49]].Perm
      [[65, 80, 80, 95, 65, 61, 49], [65, 80, 80, 95, 66, 61, 50],
        [72, 79, 77, 69, 61, 104]]) ∧
      envLoad [65, 80, 80, 95]
          [[65, 80, 80, 95, 66, 61, 50], [72, 79, 77, 69, 61, 104],
            [65, 80, 80, 95, 65, 61, 49]] =
        envLoad [65, 80, 80, 95]
          [[65, 80, 80, 95, 65, 61, 49], [65, 80, 80, 95, 66, 61, 50],
            [72, 79, 77, 69, 61, 104]] :=
  ⟨by decide,
   env_load_order_independent [65, 80, 80, 95] _ _ (by decide)⟩

end Gonfig
